import Mathlib

/-!
# Verification of the ironfish mining-pool coordinator (`src/mining/pool.ts`)

A shallow embedding of the `MiningPool` class. Buffers are `List ℕ` of bytes
(each `< 256`); JavaScript numbers used as integer counters/ids are `ℤ`
(so that `nextMiningRequestId - 1` is `-1` when the counter is `0`, as in JS);
bigints are `ℕ`; the fractional share rate in `estimateHashRate` is `ℚ`.

External collaborators (the BLAKE3 hash, the `mineableHeaderString` serializer,
the `Target` difficulty arithmetic and the RPC result) are passed in as
function/value parameters: the pool code treats them as opaque library calls.
Side effects (logs, webhooks, the stratum broadcast, the upstream block
submission, the share credit, timer arming) are recorded as an ordered event
trace, in the order the source performs them.
-/

namespace IronfishPool

/-- Big-endian numeric value of a byte buffer, as in `BigIntUtils.fromBytes`
(the bytes read as one big-endian unsigned integer). -/
def bytesToNat (bs : List ℕ) : ℕ :=
  bs.foldl (fun acc b => acc * 256 + b) 0

/-- Model of `BigIntUtils.toBytesBE(n, width)`: fixed-width big-endian byte image of
`n` (most significant byte first). -/
def toBytesBE (n : ℕ) (width : ℕ) : List ℕ :=
  (List.range width).reverse.map (fun i => n / 256 ^ i % 256)

/-- Node's `Buffer.compare` / `buf.compare(other)`: lexicographic byte
comparison returning `-1`, `0` or `1`. -/
def bufCompare : List ℕ → List ℕ → ℤ
  | [], [] => 0
  | [], _ :: _ => -1
  | _ :: _, [] => 1
  | a :: as, b :: bs => if a < b then -1 else if b < a then 1 else bufCompare as bs

/-- Numeric value of a hexadecimal digit character, `none` on non-hex input. -/
def hexDigit (c : Char) : Option ℕ :=
  if '0' ≤ c ∧ c ≤ '9' then some (c.toNat - 48)
  else if 'a' ≤ c ∧ c ≤ 'f' then some (c.toNat - 87)
  else if 'A' ≤ c ∧ c ≤ 'F' then some (c.toNat - 55)
  else none

/-- Greedy hex-pair decoding, as `Buffer.from(s, 'hex')`: consumes pairs of
hex digits, stopping at the first invalid pair or odd tail. -/
def hexPairsToBytes : List Char → List ℕ
  | c1 :: c2 :: rest =>
    match hexDigit c1, hexDigit c2 with
    | some h, some l => (16 * h + l) :: hexPairsToBytes rest
    | _, _ => []
  | _ => []

/-- Model of `Buffer.from(s, 'hex')`. -/
def hexToBuf (s : String) : List ℕ := hexPairsToBytes s.data

/-- Lowercase hex character for a value `< 16`. -/
def hexChar (n : ℕ) : Char :=
  if n < 10 then Char.ofNat (48 + n) else Char.ofNat (87 + n)

/-- Two-character lowercase hex image of one byte. -/
def byteToHex (b : ℕ) : List Char := [hexChar (b / 16), hexChar (b % 16)]

/-- Model of `buf.toString('hex')`: lowercase hex rendering of a byte buffer. -/
def bufToHex (bs : List ℕ) : String := ⟨(bs.map byteToHex).flatten⟩

theorem bytesToNat_foldl (bs : List ℕ) (acc : ℕ) :
    bs.foldl (fun a b => a * 256 + b) acc = acc * 256 ^ bs.length + bytesToNat bs := by
  induction bs generalizing acc with
  | nil => simp [bytesToNat]
  | cons x xs ih =>
    simp only [List.foldl_cons, List.length_cons, bytesToNat]
    rw [ih (acc * 256 + x), ih (0 * 256 + x)]
    ring

theorem bytesToNat_cons (x : ℕ) (xs : List ℕ) :
    bytesToNat (x :: xs) = x * 256 ^ xs.length + bytesToNat xs := by
  have := bytesToNat_foldl xs x
  simpa [bytesToNat] using this

theorem bytesToNat_lt (bs : List ℕ) (h : ∀ x ∈ bs, x < 256) :
    bytesToNat bs < 256 ^ bs.length := by
  induction bs with
  | nil => simp [bytesToNat]
  | cons x xs ih =>
    have hx : x < 256 := h x (List.mem_cons_self x xs)
    have hxs : bytesToNat xs < 256 ^ xs.length :=
      ih (fun y hy => h y (List.mem_cons_of_mem x hy))
    rw [bytesToNat_cons, List.length_cons, pow_succ]
    have hx' : x + 1 ≤ 256 := hx
    calc x * 256 ^ xs.length + bytesToNat xs
        < x * 256 ^ xs.length + 256 ^ xs.length := by omega
      _ = (x + 1) * 256 ^ xs.length := by ring
      _ ≤ 256 * 256 ^ xs.length := by
          exact Nat.mul_le_mul_right _ hx'
      _ = 256 ^ xs.length * 256 := by ring

/-- The comparison-semantics core: for equal-width byte buffers, Node's
lexicographic `Buffer.compare` not returning `1` is exactly numeric
big-endian `≤`. -/
theorem bufCompare_ne_one_iff (as : List ℕ) :
    ∀ bs : List ℕ, as.length = bs.length → (∀ x ∈ as, x < 256) →
      (∀ x ∈ bs, x < 256) → (bufCompare as bs ≠ 1 ↔ bytesToNat as ≤ bytesToNat bs) := by
  induction as with
  | nil =>
    intro bs hlen _ _
    cases bs with
    | nil => simp [bufCompare]
    | cons y ys => simp at hlen
  | cons x xs ih =>
    intro bs hlen ha hb
    cases bs with
    | nil => simp at hlen
    | cons y ys =>
      have hlen' : xs.length = ys.length := by
        simpa using hlen
      have hxsb : ∀ z ∈ xs, z < 256 := fun z hz => ha z (List.mem_cons_of_mem x hz)
      have hysb : ∀ z ∈ ys, z < 256 := fun z hz => hb z (List.mem_cons_of_mem y hz)
      have hxlt : bytesToNat xs < 256 ^ xs.length := bytesToNat_lt xs hxsb
      have hylt : bytesToNat ys < 256 ^ ys.length := bytesToNat_lt ys hysb
      rw [bytesToNat_cons, bytesToNat_cons, hlen']
      by_cases hxy : x < y
      · have hnum : x * 256 ^ ys.length + bytesToNat xs ≤ y * 256 ^ ys.length + bytesToNat ys := by
          have : (x + 1) * 256 ^ ys.length ≤ y * 256 ^ ys.length :=
            Nat.mul_le_mul_right _ hxy
          have hx2 : x * 256 ^ ys.length + bytesToNat xs < (x + 1) * 256 ^ ys.length := by
            have := hxlt
            rw [hlen'] at this
            nlinarith
          omega
        simp [bufCompare, hxy, hnum]
      · by_cases hyx : y < x
        · have hnum : ¬ (x * 256 ^ ys.length + bytesToNat xs ≤ y * 256 ^ ys.length + bytesToNat ys) := by
            have : (y + 1) * 256 ^ ys.length ≤ x * 256 ^ ys.length :=
              Nat.mul_le_mul_right _ hyx
            have hy2 : y * 256 ^ ys.length + bytesToNat ys < (y + 1) * 256 ^ ys.length := by
              nlinarith
            omega
          simp [bufCompare, hxy, hyx, hnum]
        · have hxyeq : x = y := le_antisymm (not_lt.mp hyx) (not_lt.mp hxy)
          subst hxyeq
          have hrec := ih ys hlen' hxsb hysb
          simpa [bufCompare] using hrec

theorem hexDigit_lt_16 (c : Char) (n : ℕ) (h : hexDigit c = some n) : n < 16 := by
  unfold hexDigit at h
  split at h
  · rename_i h9
    have : c.toNat ≤ 57 := h9.2
    simp only [Option.some.injEq] at h
    omega
  · split at h
    · rename_i haf
      have : c.toNat ≤ 102 := haf.2
      simp only [Option.some.injEq] at h
      omega
    · split at h
      · rename_i hAF
        have : c.toNat ≤ 70 := hAF.2
        simp only [Option.some.injEq] at h
        omega
      · exact absurd h (by simp)

theorem hexPairsToBytes_lt : ∀ cs : List Char, ∀ x ∈ hexPairsToBytes cs, x < 256
  | [] => by simp [hexPairsToBytes]
  | [_] => by simp [hexPairsToBytes]
  | c1 :: c2 :: rest => by
    intro x hx
    unfold hexPairsToBytes at hx
    cases hh : hexDigit c1 with
    | none => rw [hh] at hx; simp at hx
    | some h =>
      cases hl : hexDigit c2 with
      | none => rw [hh, hl] at hx; simp at hx
      | some l =>
        rw [hh, hl] at hx
        simp only [List.mem_cons] at hx
        rcases hx with h1 | h2
        · have e1 := hexDigit_lt_16 c1 h hh
          have e2 := hexDigit_lt_16 c2 l hl
          omega
        · exact hexPairsToBytes_lt rest x h2

/-- Every byte produced by hex decoding is `< 256`. -/
theorem hexToBuf_lt (s : String) : ∀ x ∈ hexToBuf s, x < 256 :=
  hexPairsToBytes_lt s.data

theorem toBytesBE_lt (n width : ℕ) : ∀ x ∈ toBytesBE n width, x < 256 := by
  intro x hx
  unfold toBytesBE at hx
  simp only [List.mem_map, List.mem_reverse, List.mem_range] at hx
  obtain ⟨i, _, hi⟩ := hx
  omega

theorem toBytesBE_length (n width : ℕ) : (toBytesBE n width).length = width := by
  simp [toBytesBE]

/-! ## Data model (`SerializedBlockTemplate`, clients, pool state) -/

/-- The header sub-record of a `SerializedBlockTemplate`, with the fields the
pool inspects or rewrites (`target` and `graffiti` are hex strings,
`timestamp` is milliseconds). -/
structure BlockHeader where
  previousBlockHash : String
  target : String
  timestamp : ℤ
  randomness : String
  graffiti : String
deriving DecidableEq, Repr

/-- A block template as the pool sees it: the `header` sub-record plus fields
the pool never touches (carried opaquely). -/
structure SerializedBlockTemplate where
  header : BlockHeader
deriving DecidableEq, Repr

/-- A stratum client as `submitWork` uses it. The source's
`Assert.isNotNull(client.publicAddress)` / `Assert.isNotNull(client.graffiti)`
guards are modelled by the fields being present; `graffiti` is the client's
raw buffer (the source hex-encodes it into the header). -/
structure StratumClient where
  id : ℕ
  publicAddress : String
  graffiti : List ℕ
deriving DecidableEq, Repr

/-- One observable side effect of a pool operation, in program order: log
lines, stratum calls, upstream RPC calls, share credits, webhook
notifications and timer arming. `deduperCleared` marks the point where
`recentSubmissions.clear()` runs inside `distributeNewBlock`. -/
inductive PoolEvent where
  | debugLog (msg : String)
  | warnLog (msg : String)
  | infoLog (msg : String)
  | punish (clientId : ℕ)
  | submitBlock (b : SerializedBlockTemplate)
  | submitShare (publicAddress : String)
  | deduperCleared
  | newWork (requestId : ℤ) (b : SerializedBlockTemplate)
  | webhookPoolConnected
  | webhookPoolDisconnected
  | webhookPoolSubmittedBlock
  | scheduleConnectTimeout (ms : ℕ)
  | scheduleStatusTimer (seconds : ℤ)
  | restartRetargetTimer (ms : ℕ)
  | waitForWork
deriving DecidableEq, Repr

/-- The mutable state of a `MiningPool` instance. `nextMiningRequestId` is a
JS number, kept as `ℤ` so that `nextMiningRequestId - 1` is `-1` when the
counter is `0`, exactly as in the source. `target` is the constant 32-byte
pool-target buffer; `difficulty` the configured pool difficulty bigint. -/
structure PoolState where
  started : Bool
  connectWarned : Bool
  nextMiningRequestId : ℤ
  miningRequestBlocks : List (ℤ × SerializedBlockTemplate)
  recentSubmissions : List (ℕ × List String)
  difficulty : ℕ
  target : List ℕ
  currentHeadTimestamp : Option ℤ
  currentHeadDifficulty : Option ℕ
deriving DecidableEq, Repr

/-! ## The LRU work cache and the submission map

Modelled from the spec: the `blru` `LeastRecentlyUsed` cache (a third-party
package, not under `src/`) per §4.3 — a bounded LRU of capacity 12 keyed by
request id, most-recently-inserted first, evicting strictly by recency of
insertion (reads do not promote). -/

/-- Model of `miningRequestBlocks.get(key)`: lookup without promotion. -/
def lruGet (cache : List (ℤ × SerializedBlockTemplate)) (k : ℤ) :
    Option SerializedBlockTemplate :=
  match cache with
  | [] => none
  | (k', v) :: rest => if k' = k then some v else lruGet rest k

/-- Model of `miningRequestBlocks.set(key, value)`: insert at the front (most recent),
dropping any stale entry for the same key and evicting beyond capacity 12. -/
def lruSet (cache : List (ℤ × SerializedBlockTemplate)) (k : ℤ)
    (v : SerializedBlockTemplate) : List (ℤ × SerializedBlockTemplate) :=
  ((k, v) :: cache.filter (fun e => e.1 ≠ k)).take 12

/-- JS reference aliasing: `recalculateTarget` mutates the header of the
template object stored in the cache in place. In the pure model this is a
value update at the entry holding that key, preserving recency order. -/
def lruMutate (cache : List (ℤ × SerializedBlockTemplate)) (k : ℤ)
    (v : SerializedBlockTemplate) : List (ℤ × SerializedBlockTemplate) :=
  cache.map (fun e => if e.1 = k then (k, v) else e)

/-- Model of `recentSubmissions.get(clientId)` on the JS `Map`. -/
def subsGet (m : List (ℕ × List String)) (k : ℕ) : Option (List String) :=
  match m with
  | [] => none
  | (k', v) :: rest => if k' = k then some v else subsGet rest k

/-- Model of `recentSubmissions.set(clientId, list)` on the JS `Map`: replace in place
if present, else append (JS `Map` keeps insertion order). -/
def subsSet (m : List (ℕ × List String)) (k : ℕ) (v : List String) :
    List (ℕ × List String) :=
  match m with
  | [] => [(k, v)]
  | (k', v') :: rest => if k' = k then (k, v) :: rest else (k', v') :: subsSet rest k v

/-! ## The pool operations (`src/mining/pool.ts`) -/

/-- The constructor: `nextMiningRequestId = 0`, empty cache and submission
map, head info null, and the constant pool target derived once from the
configured difficulty. `fromDifficulty` stands for the external
`Target.fromDifficulty(d).asBigInt()`. -/
def mkPool (poolDifficulty : ℕ) (fromDifficulty : ℕ → ℕ) : PoolState :=
  { started := false
    connectWarned := false
    nextMiningRequestId := 0
    miningRequestBlocks := []
    recentSubmissions := []
    difficulty := poolDifficulty
    target := toBytesBE (fromDifficulty poolDifficulty) 32
    currentHeadTimestamp := none
    currentHeadDifficulty := none }

/-- Model of `isDuplicateSubmission(clientId, randomness)`. -/
def isDuplicateSubmission (s : PoolState) (clientId : ℕ) (randomness : String) : Bool :=
  match subsGet s.recentSubmissions clientId with
  | none => false
  | some submissions => submissions.contains randomness

/-- Model of `addWorkSubmission(clientId, randomness)`. -/
def addWorkSubmission (m : List (ℕ × List String)) (clientId : ℕ)
    (randomness : String) : List (ℕ × List String) :=
  match subsGet m clientId with
  | none => subsSet m clientId [randomness]
  | some submissions => subsSet m clientId (submissions ++ [randomness])

/-- Model of `start()`: idempotent; flips `started`, arms the status timer when the
configured interval is positive, and kicks off the connect loop. It never
touches `nextMiningRequestId` or the caches. -/
def startPool (s : PoolState) (statusNotificationInterval : ℤ) :
    PoolState × List PoolEvent :=
  if s.started then (s, [])
  else
    ({ s with started := true },
      [.infoLog "Starting stratum server", .infoLog "Connecting to node..."]
        ++ (if statusNotificationInterval > 0 then
              [.scheduleStatusTimer statusNotificationInterval] else []))

/-- Model of `stop()`: idempotent; flips `started` and tears down collaborators and
timers (external effects). It never touches `nextMiningRequestId` or the
caches. -/
def stopPool (s : PoolState) : PoolState × List PoolEvent :=
  if !s.started then (s, [])
  else ({ s with started := false }, [.debugLog "Stopping pool, goodbye"])

/-- The header the pool submits: the cloned template header with the
client's graffiti (hex-encoded) and the submitted randomness written in. -/
def composedHeader (tmpl : SerializedBlockTemplate) (client : StratumClient)
    (randomness : String) : BlockHeader :=
  { tmpl.header with graffiti := bufToHex client.graffiti, randomness := randomness }

/-- Model of `submitWork(client, miningRequestId, randomness)`.

`hashF` stands for the external `blake3`; `ser` for `mineableHeaderString`
(`none` when serialization throws); `rpcAdded` for the
`rpc.submitBlock(...).content.added` reply, which only drives logging and
the `poolSubmittedBlock` webhook. The blocks of the source in order:
staleness check, cache lookup, shallow clone, duplicate check, record,
compose, encode (punish on failure), hash, block check (`compare ≠ 1`
against the header target), then share check against the pool target. -/
def submitWork (hashF : List ℕ → List ℕ) (ser : BlockHeader → Option (List ℕ))
    (rpcAdded : Bool) (s : PoolState) (client : StratumClient)
    (miningRequestId : ℤ) (randomness : String) : PoolState × List PoolEvent :=
  if miningRequestId ≠ s.nextMiningRequestId - 1 then
    (s, [.debugLog "submitted work for stale mining request"])
  else
    match lruGet s.miningRequestBlocks miningRequestId with
    | none => (s, [.warnLog "work for invalid mining request"])
    | some originalBlockTemplate =>
      if isDuplicateSubmission s client.id randomness then
        (s, [.warnLog "submitted a duplicate mining request"])
      else
        let s' := { s with recentSubmissions :=
            (addWorkSubmission s.recentSubmissions client.id randomness) }
        let header := composedHeader originalBlockTemplate client randomness
        match ser header with
        | none => (s', [.punish client.id])
        | some headerBytes =>
          let hashedHeader := hashF headerBytes
          let blockEvents :=
            if bufCompare hashedHeader (hexToBuf header.target) ≠ 1 then
              [.debugLog "Valid block, submitting to node",
               .submitBlock { header := header }]
                ++ (if rpcAdded then
                      [.infoLog "Block submitted successfully!",
                       .webhookPoolSubmittedBlock]
                    else [.infoLog "Block was rejected"])
            else []
          let shareEvents :=
            if bufCompare hashedHeader s'.target ≠ 1 then
              [.debugLog "Valid pool share submitted",
               .submitShare client.publicAddress]
            else []
          (s', blockEvents ++ shareEvents)

/-- Model of `distributeNewBlock(newBlock)`: assert head info present (`none` models
the `Assert.isNotNull` throw), take a fresh request id, cache the block,
clear the deduper, then broadcast the new work — in that order. -/
def distributeNewBlock (s : PoolState) (newBlock : SerializedBlockTemplate) :
    Option (PoolState × List PoolEvent) :=
  match s.currentHeadTimestamp, s.currentHeadDifficulty with
  | some _, some _ =>
    let miningRequestId := s.nextMiningRequestId
    some
      ({ s with
          nextMiningRequestId := s.nextMiningRequestId + 1
          miningRequestBlocks := lruSet s.miningRequestBlocks miningRequestId newBlock
          recentSubmissions := [] },
        [.deduperCleared, .newWork miningRequestId newBlock])
  | _, _ => none

/-- Model of `recalculateTarget()`: recompute the target from the chain head
(`calcDifficulty` stands for `Target.calculateDifficulty`, `fromDifficulty`
for `Target.fromDifficulty(..).asBigInt()`, `now` for `new Date()`); if it
equals the current template's target, do nothing; otherwise mutate the
cached template's header in place (target as 32-byte hex, timestamp `now`)
and publish it through `distributeNewBlock`. `none` models a failed
`Assert.isNotNull`. -/
def recalculateTarget (calcDifficulty : ℤ → ℤ → ℕ → ℕ) (fromDifficulty : ℕ → ℕ)
    (now : ℤ) (s : PoolState) : Option (PoolState × List PoolEvent) :=
  match s.currentHeadTimestamp, s.currentHeadDifficulty with
  | some headTimestamp, some headDifficulty =>
    match lruGet s.miningRequestBlocks (s.nextMiningRequestId - 1) with
    | none => none
    | some latestBlock =>
      let newTarget := fromDifficulty (calcDifficulty now headTimestamp headDifficulty)
      let existingTarget := bytesToNat (hexToBuf latestBlock.header.target)
      if newTarget = existingTarget then
        some (s, [.debugLog "recalculating target",
                  .debugLog "new target is the same as the existing target"])
      else
        let mutated : SerializedBlockTemplate :=
          { header := { latestBlock.header with
              target := bufToHex (toBytesBE newTarget 32)
              timestamp := now } }
        let s' := { s with miningRequestBlocks :=
            (lruMutate s.miningRequestBlocks (s.nextMiningRequestId - 1) mutated) }
        match distributeNewBlock s' mutated with
        | none => none
        | some (s'', ev) =>
          some (s'', [.debugLog "recalculating target"] ++ ev
            ++ [.debugLog "target recalculated"])
  | _, _ => none

/-- One item of `processNewBlocks`: assert `previousBlockInfo` present,
restart the retarget timer, update the chain-head fields (`toDifficulty`
stands for `new Target(bytes).toDifficulty()`), then distribute the new
template. -/
def onTemplate (toDifficulty : List ℕ → ℕ) (s : PoolState)
    (template : SerializedBlockTemplate) (prevTarget : String) (prevTimestamp : ℤ) :
    Option (PoolState × List PoolEvent) :=
  let s' := { s with
    currentHeadDifficulty := some (toDifficulty (hexToBuf prevTarget))
    currentHeadTimestamp := some prevTimestamp }
  match distributeNewBlock s' template with
  | none => none
  | some (s'', ev) => some (s'', .restartRetargetTimer 10000 :: ev)

/-- Model of `startConnectingRpc()` after its `await rpc.tryConnect()` resolved to
`connected`: bail out if stopped meanwhile; on failure warn once per outage
(gated by `connectWarned`) and schedule a 5000 ms retry; on success notify
`poolConnected`, clear `connectWarned` and start consuming templates. -/
def startConnectingRpc (connected : Bool) (s : PoolState) :
    PoolState × List PoolEvent :=
  if !s.started then (s, [])
  else if !connected then
    if !s.connectWarned then
      ({ s with connectWarned := true },
        [.warnLog "Failed to connect to node, retrying...",
         .scheduleConnectTimeout 5000])
    else (s, [.scheduleConnectTimeout 5000])
  else
    ({ s with connectWarned := false },
      [.webhookPoolConnected, .infoLog "Successfully connected to node",
       .infoLog "Listening to node for new blocks"])

/-- Model of `onDisconnectRpc`: put the stratum server into no-work mode, log, notify
`poolDisconnected`, then re-enter the connect loop (the chained
`startConnectingRpc` call is a separate step of the trace). -/
def onDisconnectRpc (s : PoolState) : PoolState × List PoolEvent :=
  (s, [.waitForWork, .infoLog "Disconnected from node unexpectedly. Reconnecting.",
       .webhookPoolDisconnected])

/-- Model of `estimateHashRate`: scale the fractional share rate by `10^6`, floor to
an integer, multiply by the 256-bit pool difficulty, divide back. The JS
floating-point carrier is modelled by `ℚ` with `Math.floor` as `Int.floor`. -/
def estimateHashRate (shareRate : ℚ) (difficulty : ℕ) : ℚ :=
  ((⌊shareRate * 1000000⌋ : ℚ) * (difficulty : ℚ)) / 1000000

/-! ## Event classifiers and concrete fixtures -/

/-- Is this event a share credit (`shares.submitShare`)? -/
def isShareEvent : PoolEvent → Bool
  | .submitShare _ => true
  | _ => false

/-- Is this event an upstream block submission (`rpc.submitBlock`)? -/
def isBlockSubmitEvent : PoolEvent → Bool
  | .submitBlock _ => true
  | _ => false

/-- Is this event a punishment (`stratum.peers.punish`)? -/
def isPunishEvent : PoolEvent → Bool
  | .punish _ => true
  | _ => false

/-- Is this event a warning log line? -/
def isWarnEvent : PoolEvent → Bool
  | .warnLog _ => true
  | _ => false

/-- Number of occurrences of one event in a trace. -/
def countEvent (l : List PoolEvent) (e : PoolEvent) : ℕ :=
  l.countP (fun x => x = e)

/-- The all-`f` 64-character hex string: the maximal 32-byte target. -/
def maxTargetHex : String := ⟨List.replicate 64 'f'⟩

/-- A concrete block template used to instantiate the theorems. -/
def tmpl0 : SerializedBlockTemplate :=
  { header := { previousBlockHash := "prev", target := maxTargetHex, timestamp := 0,
                randomness := "", graffiti := "" } }

/-- A concrete subscribed client. -/
def client0 : StratumClient := { id := 7, publicAddress := "poolAddr", graffiti := [] }

/-- A concrete streaming pool state: one epoch published (`id 0`), so
`nextMiningRequestId = 1`, with the easiest possible pool target. -/
def s0 : PoolState :=
  { started := true
    connectWarned := false
    nextMiningRequestId := 1
    miningRequestBlocks := [(0, tmpl0)]
    recentSubmissions := []
    difficulty := 1
    target := List.replicate 32 255
    currentHeadTimestamp := some 0
    currentHeadDifficulty := some 1 }

/-- A freshly constructed pool that has been started but never connected. -/
def startedPool0 : PoolState := { mkPool 1 id with started := true }

/-! ## Claim theorems -/

/-- C3: a submission whose `miningRequestId` is not `nextMiningRequestId - 1`
is silently dropped with only a debug log: the state (deduper, work cache,
request counter) is returned unchanged and no share, block submission or
punishment event is emitted. -/
theorem submitWork_stale_silently_dropped
    (hashF : List ℕ → List ℕ) (ser : BlockHeader → Option (List ℕ)) (added : Bool)
    (s : PoolState) (client : StratumClient) (rid : ℤ) (r : String)
    (h : rid ≠ s.nextMiningRequestId - 1) :
    submitWork hashF ser added s client rid r
      = (s, [.debugLog "submitted work for stale mining request"]) := by
  unfold submitWork
  rw [if_pos h]

/-- Closed instance of `submitWork_stale_silently_dropped` at a concrete
stale request id. -/
theorem submitWork_stale_silently_dropped_witness :
    submitWork (fun _ => List.replicate 32 0) (fun _ => some []) false s0 client0 5 "aa"
      = (s0, [.debugLog "submitted work for stale mining request"]) :=
  submitWork_stale_silently_dropped _ _ _ _ _ _ _ (by decide)

/-- C10: before any epoch is published (`nextMiningRequestId = 0`, empty
work cache), a submission with `miningRequestId = -1` passes the staleness
check (`-1 = 0 - 1`) but misses the cache and is dropped with a warning
and no state change. -/
theorem submitWork_before_first_epoch
    (hashF : List ℕ → List ℕ) (ser : BlockHeader → Option (List ℕ)) (added : Bool)
    (s : PoolState) (client : StratumClient) (r : String)
    (h0 : s.nextMiningRequestId = 0) (hcache : s.miningRequestBlocks = []) :
    submitWork hashF ser added s client (-1) r
      = (s, [.warnLog "work for invalid mining request"]) := by
  unfold submitWork
  rw [if_neg (by rw [h0]; decide), hcache]
  rfl

/-- Closed instance of `submitWork_before_first_epoch` on a freshly
constructed pool. -/
theorem submitWork_before_first_epoch_witness :
    submitWork (fun _ => List.replicate 32 0) (fun _ => some []) false (mkPool 1 id)
        client0 (-1) "aa"
      = (mkPool 1 id, [.warnLog "work for invalid mining request"]) :=
  submitWork_before_first_epoch _ _ _ _ _ _ rfl rfl

/-- Explicit value of `distributeNewBlock` when the head-info asserts pass. -/
theorem distributeNewBlock_eq (s : PoolState) (b : SerializedBlockTemplate)
    (ts : ℤ) (d : ℕ) (hts : s.currentHeadTimestamp = some ts)
    (hd : s.currentHeadDifficulty = some d) :
    distributeNewBlock s b = some
      ({ s with
          nextMiningRequestId := s.nextMiningRequestId + 1
          miningRequestBlocks := lruSet s.miningRequestBlocks s.nextMiningRequestId b
          recentSubmissions := [] },
        [.deduperCleared, .newWork s.nextMiningRequestId b]) := by
  unfold distributeNewBlock
  rw [hts, hd]

theorem distributeNewBlock_inv (s : PoolState) (b : SerializedBlockTemplate)
    (s' : PoolState) (ev : List PoolEvent)
    (h : distributeNewBlock s b = some (s', ev)) :
    s'.nextMiningRequestId = s.nextMiningRequestId + 1 ∧
      s'.miningRequestBlocks = lruSet s.miningRequestBlocks s.nextMiningRequestId b ∧
      s'.recentSubmissions = [] ∧
      ev = [.deduperCleared, .newWork s.nextMiningRequestId b] := by
  cases hts : s.currentHeadTimestamp with
  | none => unfold distributeNewBlock at h; rw [hts] at h; simp at h
  | some ts =>
    cases hd : s.currentHeadDifficulty with
    | none => unfold distributeNewBlock at h; rw [hts, hd] at h; simp at h
    | some d =>
      rw [distributeNewBlock_eq s b ts d hts hd] at h
      rw [Option.some.injEq, Prod.mk.injEq] at h
      obtain ⟨h1, h2⟩ := h
      exact ⟨by rw [← h1], by rw [← h1], by rw [← h1], h2.symm⟩

/-- C2: after every `distributeNewBlock` the submission deduper is empty,
and in its effect trace the deduper clear strictly precedes the `newWork`
broadcast to the stratum server. -/
theorem distributeNewBlock_clears_deduper_before_broadcast
    (s : PoolState) (b : SerializedBlockTemplate) (s' : PoolState)
    (ev : List PoolEvent) (h : distributeNewBlock s b = some (s', ev)) :
    s'.recentSubmissions = [] ∧
      ∃ i j : ℕ, i < j ∧ ev[i]? = some PoolEvent.deduperCleared ∧
        ev[j]? = some (PoolEvent.newWork s.nextMiningRequestId b) := by
  obtain ⟨-, -, hsub, hev⟩ := distributeNewBlock_inv s b s' ev h
  subst hev
  exact ⟨hsub, 0, 1, by norm_num, rfl, rfl⟩

/-- Closed instance of `distributeNewBlock_clears_deduper_before_broadcast`
on the concrete streaming state. -/
theorem distributeNewBlock_clears_deduper_before_broadcast_witness :
    ∃ s' ev, distributeNewBlock s0 tmpl0 = some (s', ev) ∧
      s'.recentSubmissions = [] ∧
      ∃ i j : ℕ, i < j ∧ ev[i]? = some PoolEvent.deduperCleared ∧
        ev[j]? = some (PoolEvent.newWork s0.nextMiningRequestId tmpl0) := by
  obtain ⟨s', ev, h⟩ : ∃ s' ev, distributeNewBlock s0 tmpl0 = some (s', ev) := ⟨_, _, rfl⟩
  exact ⟨s', ev, h, distributeNewBlock_clears_deduper_before_broadcast s0 tmpl0 s' ev h⟩

theorem take12_cons {α : Type} (a : α) (l : List α) :
    List.take 12 (a :: l) = a :: List.take 11 l := rfl

theorem lruGet_lruSet_same (c : List (ℤ × SerializedBlockTemplate)) (k : ℤ)
    (v : SerializedBlockTemplate) : lruGet (lruSet c k v) k = some v := by
  unfold lruSet
  rw [take12_cons]
  unfold lruGet
  simp

theorem take11_cons {α : Type} (a : α) (l : List α) :
    List.take 11 (a :: l) = a :: List.take 10 l := rfl

theorem lruGet_lruSet_head (k' : ℤ) (v' : SerializedBlockTemplate)
    (rest : List (ℤ × SerializedBlockTemplate)) (k : ℤ) (v : SerializedBlockTemplate)
    (hne : k' ≠ k) :
    lruGet (lruSet ((k', v') :: rest) k v) k' = some v' := by
  unfold lruSet
  rw [List.filter_cons, if_pos (by simp [hne])]
  rw [take12_cons]
  unfold lruGet
  rw [if_neg (Ne.symm hne), take11_cons]
  unfold lruGet
  simp

/-- C6: when the recomputed target equals the current template's existing
header target, `recalculateTarget` only logs: the state — template cache,
deduper, `nextMiningRequestId` — is returned unchanged and no `newWork`
broadcast or any other event is emitted. -/
theorem recalculateTarget_same_target_noop
    (calcDifficulty : ℤ → ℤ → ℕ → ℕ) (fromDifficulty : ℕ → ℕ) (now : ℤ)
    (s : PoolState) (ts : ℤ) (d : ℕ) (latest : SerializedBlockTemplate)
    (hts : s.currentHeadTimestamp = some ts) (hd : s.currentHeadDifficulty = some d)
    (hcache : lruGet s.miningRequestBlocks (s.nextMiningRequestId - 1) = some latest)
    (heq : fromDifficulty (calcDifficulty now ts d)
      = bytesToNat (hexToBuf latest.header.target)) :
    recalculateTarget calcDifficulty fromDifficulty now s
      = some (s, [.debugLog "recalculating target",
                  .debugLog "new target is the same as the existing target"]) := by
  unfold recalculateTarget
  rw [hts, hd]
  simp only [hcache, heq, if_pos]

/-- Closed instance of `recalculateTarget_same_target_noop`: the retarget
fires, recomputes the maximal target already carried by the template, and
leaves everything unchanged. -/
theorem recalculateTarget_same_target_noop_witness :
    recalculateTarget (fun _ _ _ => 1) (fun _ => 2 ^ 256 - 1) 5 s0
      = some (s0, [.debugLog "recalculating target",
                   .debugLog "new target is the same as the existing target"]) :=
  recalculateTarget_same_target_noop _ _ _ _ 0 1 tmpl0 rfl rfl (by decide) (by decide)

/-- The in-place retargeted template: the cached header with its target
replaced by the new target as 32-byte hex and its timestamp set to now. -/
def retargetedTemplate (latest : SerializedBlockTemplate) (newTarget : ℕ) (now : ℤ) :
    SerializedBlockTemplate :=
  { header := { latest.header with
      target := bufToHex (toBytesBE newTarget 32)
      timestamp := now } }

/-- C5: when the recomputed target differs from the cached current
template's header target, `recalculateTarget` mutates that cached template
in place (new target as 32-byte hex, timestamp set to now) — the entry at
the current id now holds the mutated template — and publishes it as a new
epoch: fresh incremented request id, deduper reset, `newWork` broadcast. -/
theorem recalculateTarget_publishes_on_change
    (calcDifficulty : ℤ → ℤ → ℕ → ℕ) (fromDifficulty : ℕ → ℕ) (now : ℤ)
    (s : PoolState) (ts : ℤ) (d : ℕ) (latest : SerializedBlockTemplate)
    (rest : List (ℤ × SerializedBlockTemplate))
    (hts : s.currentHeadTimestamp = some ts) (hd : s.currentHeadDifficulty = some d)
    (hhead : s.miningRequestBlocks = (s.nextMiningRequestId - 1, latest) :: rest)
    (hne : fromDifficulty (calcDifficulty now ts d)
      ≠ bytesToNat (hexToBuf latest.header.target)) :
    ∃ s'' ev, recalculateTarget calcDifficulty fromDifficulty now s = some (s'', ev) ∧
      s''.nextMiningRequestId = s.nextMiningRequestId + 1 ∧
      s''.recentSubmissions = [] ∧
      lruGet s''.miningRequestBlocks s.nextMiningRequestId
        = some (retargetedTemplate latest (fromDifficulty (calcDifficulty now ts d)) now) ∧
      lruGet s''.miningRequestBlocks (s.nextMiningRequestId - 1)
        = some (retargetedTemplate latest (fromDifficulty (calcDifficulty now ts d)) now) ∧
      PoolEvent.newWork s.nextMiningRequestId
        (retargetedTemplate latest (fromDifficulty (calcDifficulty now ts d)) now) ∈ ev := by
  have hcache : lruGet s.miningRequestBlocks (s.nextMiningRequestId - 1) = some latest := by
    rw [hhead]; unfold lruGet; simp
  have hmut : lruMutate s.miningRequestBlocks (s.nextMiningRequestId - 1)
      (retargetedTemplate latest (fromDifficulty (calcDifficulty now ts d)) now)
      = (s.nextMiningRequestId - 1,
          retargetedTemplate latest (fromDifficulty (calcDifficulty now ts d)) now)
        :: lruMutate rest (s.nextMiningRequestId - 1)
          (retargetedTemplate latest (fromDifficulty (calcDifficulty now ts d)) now) := by
    rw [hhead]; unfold lruMutate; simp [lruMutate]
  unfold recalculateTarget
  rw [hts, hd]
  simp only [hcache]
  rw [if_neg hne]
  rw [distributeNewBlock_eq _ _ ts d rfl rfl]
  refine ⟨_, _, rfl, rfl, rfl, ?_, ?_, ?_⟩
  · exact lruGet_lruSet_same _ _ _
  · show lruGet (lruSet (lruMutate s.miningRequestBlocks (s.nextMiningRequestId - 1)
        (retargetedTemplate latest (fromDifficulty (calcDifficulty now ts d)) now))
        s.nextMiningRequestId
        (retargetedTemplate latest (fromDifficulty (calcDifficulty now ts d)) now))
      (s.nextMiningRequestId - 1)
      = some (retargetedTemplate latest (fromDifficulty (calcDifficulty now ts d)) now)
    rw [hmut]
    exact lruGet_lruSet_head _ _ _ _ _ (by omega)
  · simp [retargetedTemplate]

/-- Closed instance of `recalculateTarget_publishes_on_change`: the retarget
yields target `0` against the maximal cached target, so a new epoch `1` is
published carrying the mutated template. -/
theorem recalculateTarget_publishes_on_change_witness :
    ∃ s'' ev, recalculateTarget (fun _ _ _ => 1) (fun _ => 0) 5 s0 = some (s'', ev) ∧
      s''.nextMiningRequestId = s0.nextMiningRequestId + 1 ∧
      s''.recentSubmissions = [] ∧
      lruGet s''.miningRequestBlocks s0.nextMiningRequestId
        = some (retargetedTemplate tmpl0 0 5) ∧
      lruGet s''.miningRequestBlocks (s0.nextMiningRequestId - 1)
        = some (retargetedTemplate tmpl0 0 5) ∧
      PoolEvent.newWork s0.nextMiningRequestId (retargetedTemplate tmpl0 0 5) ∈ ev :=
  recalculateTarget_publishes_on_change (fun _ _ _ => 1) (fun _ => 0) 5 s0 0 1 tmpl0 []
    rfl rfl (by decide) (by decide)

/-- Evaluation of `submitWork` on the fully accepted path (current id,
cache hit, not a duplicate, serializer succeeds): the submission is
recorded, then the block check and the share check run independently. -/
theorem submitWork_accepted
    (hashF : List ℕ → List ℕ) (ser : BlockHeader → Option (List ℕ)) (added : Bool)
    (s : PoolState) (client : StratumClient) (r : String)
    (tmpl : SerializedBlockTemplate) (bytes : List ℕ)
    (hcache : lruGet s.miningRequestBlocks (s.nextMiningRequestId - 1) = some tmpl)
    (hdup : isDuplicateSubmission s client.id r = false)
    (hser : ser (composedHeader tmpl client r) = some bytes) :
    submitWork hashF ser added s client (s.nextMiningRequestId - 1) r
      = ({ s with recentSubmissions :=
            (addWorkSubmission s.recentSubmissions client.id r) },
        (if bufCompare (hashF bytes) (hexToBuf tmpl.header.target) ≠ 1 then
          [.debugLog "Valid block, submitting to node",
           .submitBlock { header := composedHeader tmpl client r }]
            ++ (if added then
                  [.infoLog "Block submitted successfully!", .webhookPoolSubmittedBlock]
                else [.infoLog "Block was rejected"])
         else [])
          ++ (if bufCompare (hashF bytes) s.target ≠ 1 then
                [.debugLog "Valid pool share submitted", .submitShare client.publicAddress]
              else [])) := by
  unfold submitWork
  rw [if_neg (by simp)]
  simp only [hcache, hdup, hser]
  rfl

/-- Evaluation of `submitWork` when the serializer rejects the composed
header: the submission is still recorded, and the only effect is a punish. -/
theorem submitWork_malformed
    (hashF : List ℕ → List ℕ) (ser : BlockHeader → Option (List ℕ)) (added : Bool)
    (s : PoolState) (client : StratumClient) (r : String)
    (tmpl : SerializedBlockTemplate)
    (hcache : lruGet s.miningRequestBlocks (s.nextMiningRequestId - 1) = some tmpl)
    (hdup : isDuplicateSubmission s client.id r = false)
    (hser : ser (composedHeader tmpl client r) = none) :
    submitWork hashF ser added s client (s.nextMiningRequestId - 1) r
      = ({ s with recentSubmissions :=
            (addWorkSubmission s.recentSubmissions client.id r) },
        [.punish client.id]) := by
  unfold submitWork
  rw [if_neg (by simp)]
  simp only [hcache, hdup, hser]
  rfl

/-- Evaluation of `submitWork` on a duplicate `(clientId, randomness)`
within the current epoch: dropped with a warning, nothing recorded. -/
theorem submitWork_duplicate
    (hashF : List ℕ → List ℕ) (ser : BlockHeader → Option (List ℕ)) (added : Bool)
    (s : PoolState) (client : StratumClient) (rid : ℤ) (r : String)
    (tmpl : SerializedBlockTemplate)
    (hrid : rid = s.nextMiningRequestId - 1)
    (hcache : lruGet s.miningRequestBlocks rid = some tmpl)
    (hdup : isDuplicateSubmission s client.id r = true) :
    submitWork hashF ser added s client rid r
      = (s, [.warnLog "submitted a duplicate mining request"]) := by
  subst hrid
  unfold submitWork
  rw [if_neg (by simp)]
  simp only [hcache, hdup]
  rfl

/-- C1: for a submission accepted past the staleness, cache and duplicate
checks, the block is submitted upstream iff the BLAKE3 digest of the
serialized header is numerically ≤ the template's header target, one share
is credited to `client.publicAddress` iff the digest is numerically ≤ the
constant pool target (both can hold at once, as the witness shows), and
the fixed-width 32-byte lexicographic buffer comparison the code uses is
equivalent to numeric big-endian comparison on both checks. -/
theorem submitWork_block_and_share_checks
    (hashF : List ℕ → List ℕ) (ser : BlockHeader → Option (List ℕ)) (added : Bool)
    (s : PoolState) (client : StratumClient) (r : String)
    (tmpl : SerializedBlockTemplate) (bytes : List ℕ)
    (hcache : lruGet s.miningRequestBlocks (s.nextMiningRequestId - 1) = some tmpl)
    (hdup : isDuplicateSubmission s client.id r = false)
    (hser : ser (composedHeader tmpl client r) = some bytes)
    (hdlen : (hashF bytes).length = 32) (hdbytes : ∀ x ∈ hashF bytes, x < 256)
    (htlen : (hexToBuf tmpl.header.target).length = 32)
    (hplen : s.target.length = 32) (hpbytes : ∀ x ∈ s.target, x < 256) :
    ((∃ b, PoolEvent.submitBlock b
        ∈ (submitWork hashF ser added s client (s.nextMiningRequestId - 1) r).2)
      ↔ bytesToNat (hashF bytes) ≤ bytesToNat (hexToBuf tmpl.header.target)) ∧
    (PoolEvent.submitShare client.publicAddress
        ∈ (submitWork hashF ser added s client (s.nextMiningRequestId - 1) r).2
      ↔ bytesToNat (hashF bytes) ≤ bytesToNat s.target) ∧
    (bufCompare (hashF bytes) (hexToBuf tmpl.header.target) ≠ 1
      ↔ bytesToNat (hashF bytes) ≤ bytesToNat (hexToBuf tmpl.header.target)) ∧
    (bufCompare (hashF bytes) s.target ≠ 1
      ↔ bytesToNat (hashF bytes) ≤ bytesToNat s.target) := by
  have hlex1 := bufCompare_ne_one_iff (hashF bytes) (hexToBuf tmpl.header.target)
    (by rw [hdlen, htlen]) hdbytes (hexToBuf_lt _)
  have hlex2 := bufCompare_ne_one_iff (hashF bytes) s.target
    (by rw [hdlen, hplen]) hdbytes hpbytes
  rw [submitWork_accepted hashF ser added s client r tmpl bytes hcache hdup hser]
  refine ⟨?_, ?_, hlex1, hlex2⟩
  · rw [← hlex1]
    by_cases h1 : bufCompare (hashF bytes) (hexToBuf tmpl.header.target) ≠ 1 <;>
      by_cases h2 : bufCompare (hashF bytes) s.target ≠ 1 <;>
      cases added <;> simp [h1, h2]
  · rw [← hlex2]
    by_cases h1 : bufCompare (hashF bytes) (hexToBuf tmpl.header.target) ≠ 1 <;>
      by_cases h2 : bufCompare (hashF bytes) s.target ≠ 1 <;>
      cases added <;> simp [h1, h2]

/-- Closed instance of `submitWork_block_and_share_checks` in which the
digest (all zeros) meets both the header target and the pool target, so the
same submission is both submitted upstream and credited as a share. -/
theorem submitWork_block_and_share_checks_witness :
    (∃ b, PoolEvent.submitBlock b
      ∈ (submitWork (fun _ => List.replicate 32 0) (fun _ => some []) true s0 client0
          (s0.nextMiningRequestId - 1) "ab").2) ∧
    PoolEvent.submitShare client0.publicAddress
      ∈ (submitWork (fun _ => List.replicate 32 0) (fun _ => some []) true s0 client0
          (s0.nextMiningRequestId - 1) "ab").2 := by
  have h := submitWork_block_and_share_checks (fun _ => List.replicate 32 0)
    (fun _ => some []) true s0 client0 "ab" tmpl0 []
    (by decide) (by decide) rfl (by decide) (by decide) (by decide) (by decide) (by decide)
  exact ⟨h.1.mpr (by decide), h.2.1.mpr (by decide)⟩

theorem subsGet_subsSet (m : List (ℕ × List String)) (k : ℕ) (v : List String) :
    subsGet (subsSet m k v) k = some v := by
  induction m with
  | nil => simp [subsSet, subsGet]
  | cons e rest ih =>
    obtain ⟨k', v'⟩ := e
    unfold subsSet
    by_cases h : k' = k
    · rw [if_pos h]
      unfold subsGet
      simp
    · rw [if_neg h]
      unfold subsGet
      rw [if_neg h]
      exact ih

theorem subsGet_addWork (m : List (ℕ × List String)) (clientId : ℕ) (r : String) :
    ∃ l, subsGet (addWorkSubmission m clientId r) clientId = some l ∧ r ∈ l := by
  unfold addWorkSubmission
  cases h : subsGet m clientId with
  | none => exact ⟨[r], subsGet_subsSet m clientId [r], by simp⟩
  | some subs => exact ⟨subs ++ [r], subsGet_subsSet m clientId (subs ++ [r]), by simp⟩

theorem isDuplicateSubmission_after_add (s : PoolState) (m : List (ℕ × List String))
    (clientId : ℕ) (r : String)
    (hs : s.recentSubmissions = addWorkSubmission m clientId r) :
    isDuplicateSubmission s clientId r = true := by
  unfold isDuplicateSubmission
  rw [hs]
  obtain ⟨l, hget, hmem⟩ := subsGet_addWork m clientId r
  rw [hget]
  simpa using hmem

theorem isDuplicateSubmission_empty (s : PoolState) (clientId : ℕ) (r : String)
    (h : s.recentSubmissions = []) : isDuplicateSubmission s clientId r = false := by
  unfold isDuplicateSubmission
  rw [h]
  rfl

/-- C4: within one epoch, a second submission with the same
`(clientId, randomness)` is dropped with a warning — not recorded again,
not punished — so the pair of submissions yields at most one share credit
and at most one upstream block submission; and once a new epoch is
published the same randomness is no longer treated as a duplicate. -/
theorem submitWork_duplicate_within_epoch
    (hashF : List ℕ → List ℕ) (ser : BlockHeader → Option (List ℕ)) (added : Bool)
    (s : PoolState) (client : StratumClient) (r : String)
    (tmpl : SerializedBlockTemplate)
    (hcache : lruGet s.miningRequestBlocks (s.nextMiningRequestId - 1) = some tmpl)
    (hdup : isDuplicateSubmission s client.id r = false)
    (s1 s2 : PoolState) (e1 e2 : List PoolEvent)
    (h1 : submitWork hashF ser added s client (s.nextMiningRequestId - 1) r = (s1, e1))
    (h2 : submitWork hashF ser added s1 client (s.nextMiningRequestId - 1) r = (s2, e2)) :
    s2 = s1 ∧ e2 = [.warnLog "submitted a duplicate mining request"] ∧
    (e1 ++ e2).countP isShareEvent ≤ 1 ∧
    (e1 ++ e2).countP isBlockSubmitEvent ≤ 1 ∧
    e2.countP isPunishEvent = 0 ∧
    (∀ b s3 ev, distributeNewBlock s1 b = some (s3, ev) →
      isDuplicateSubmission s3 client.id r = false) := by
  cases hser : ser (composedHeader tmpl client r) with
  | none =>
    rw [submitWork_malformed hashF ser added s client r tmpl hcache hdup hser,
      Prod.mk.injEq] at h1
    obtain ⟨hs1, he1⟩ := h1
    subst hs1; subst he1
    have hdup1 := isDuplicateSubmission_after_add
      { s with recentSubmissions :=
          (addWorkSubmission s.recentSubmissions client.id r) }
      s.recentSubmissions client.id r rfl
    rw [submitWork_duplicate hashF ser added
        { s with recentSubmissions :=
            (addWorkSubmission s.recentSubmissions client.id r) }
        client (s.nextMiningRequestId - 1) r tmpl rfl hcache hdup1,
      Prod.mk.injEq] at h2
    obtain ⟨hs2, he2⟩ := h2
    subst hs2; subst he2
    refine ⟨rfl, rfl, ?_, ?_, ?_, ?_⟩
    · simp [List.countP_append, List.countP_cons, isShareEvent]
    · simp [List.countP_append, List.countP_cons, isBlockSubmitEvent]
    · simp [List.countP_cons, isPunishEvent]
    · intro b s3 ev h3
      exact isDuplicateSubmission_empty s3 client.id r
        (distributeNewBlock_inv _ b s3 ev h3).2.2.1
  | some bytes =>
    rw [submitWork_accepted hashF ser added s client r tmpl bytes hcache hdup hser,
      Prod.mk.injEq] at h1
    obtain ⟨hs1, he1⟩ := h1
    subst hs1; subst he1
    have hdup1 := isDuplicateSubmission_after_add
      { s with recentSubmissions :=
          (addWorkSubmission s.recentSubmissions client.id r) }
      s.recentSubmissions client.id r rfl
    rw [submitWork_duplicate hashF ser added
        { s with recentSubmissions :=
            (addWorkSubmission s.recentSubmissions client.id r) }
        client (s.nextMiningRequestId - 1) r tmpl rfl hcache hdup1,
      Prod.mk.injEq] at h2
    obtain ⟨hs2, he2⟩ := h2
    subst hs2; subst he2
    refine ⟨rfl, rfl, ?_, ?_, ?_, ?_⟩
    · by_cases c1 : bufCompare (hashF bytes) (hexToBuf tmpl.header.target) ≠ 1 <;>
        by_cases c2 : bufCompare (hashF bytes) s.target ≠ 1 <;> cases added <;>
        simp [c1, c2, List.countP_append, List.countP_cons, isShareEvent]
    · by_cases c1 : bufCompare (hashF bytes) (hexToBuf tmpl.header.target) ≠ 1 <;>
        by_cases c2 : bufCompare (hashF bytes) s.target ≠ 1 <;> cases added <;>
        simp [c1, c2, List.countP_append, List.countP_cons, isBlockSubmitEvent]
    · simp [List.countP_cons, isPunishEvent]
    · intro b s3 ev h3
      exact isDuplicateSubmission_empty s3 client.id r
        (distributeNewBlock_inv _ b s3 ev h3).2.2.1

/-- Closed instance of `submitWork_duplicate_within_epoch`: the same
client re-submits the same randomness within epoch `0`. -/
theorem submitWork_duplicate_within_epoch_witness :
    ∃ s1 e1 s2 e2,
      submitWork (fun _ => List.replicate 32 0) (fun _ => some []) false s0 client0
        (s0.nextMiningRequestId - 1) "ab" = (s1, e1) ∧
      submitWork (fun _ => List.replicate 32 0) (fun _ => some []) false s1 client0
        (s0.nextMiningRequestId - 1) "ab" = (s2, e2) ∧
      s2 = s1 ∧ e2 = [.warnLog "submitted a duplicate mining request"] ∧
      (e1 ++ e2).countP isShareEvent ≤ 1 ∧
      (e1 ++ e2).countP isBlockSubmitEvent ≤ 1 ∧
      e2.countP isPunishEvent = 0 ∧
      (∀ b s3 ev, distributeNewBlock s1 b = some (s3, ev) →
        isDuplicateSubmission s3 client0.id "ab" = false) := by
  obtain ⟨s1, e1, h1⟩ : ∃ s1 e1,
      submitWork (fun _ => List.replicate 32 0) (fun _ => some []) false s0 client0
        (s0.nextMiningRequestId - 1) "ab" = (s1, e1) := ⟨_, _, rfl⟩
  obtain ⟨s2, e2, h2⟩ : ∃ s2 e2,
      submitWork (fun _ => List.replicate 32 0) (fun _ => some []) false s1 client0
        (s0.nextMiningRequestId - 1) "ab" = (s2, e2) := ⟨_, _, rfl⟩
  exact ⟨s1, e1, s2, e2, h1, h2,
    submitWork_duplicate_within_epoch (fun _ => List.replicate 32 0) (fun _ => some [])
      false s0 client0 "ab" tmpl0 (by decide) (by decide) s1 s2 e1 e2 h1 h2⟩

theorem submitWork_next (hashF : List ℕ → List ℕ) (ser : BlockHeader → Option (List ℕ))
    (added : Bool) (s : PoolState) (client : StratumClient) (rid : ℤ) (r : String) :
    (submitWork hashF ser added s client rid r).1.nextMiningRequestId
      = s.nextMiningRequestId := by
  unfold submitWork
  dsimp only
  repeat' split
  all_goals rfl

theorem startPool_next (s : PoolState) (i : ℤ) :
    ((startPool s i).1).nextMiningRequestId = s.nextMiningRequestId := by
  unfold startPool
  split <;> rfl

theorem stopPool_next (s : PoolState) :
    ((stopPool s).1).nextMiningRequestId = s.nextMiningRequestId := by
  unfold stopPool
  split <;> rfl

theorem startConnectingRpc_next (b : Bool) (s : PoolState) :
    ((startConnectingRpc b s).1).nextMiningRequestId = s.nextMiningRequestId := by
  unfold startConnectingRpc
  repeat' split
  all_goals rfl

theorem recalculateTarget_next (cd : ℤ → ℤ → ℕ → ℕ) (fd : ℕ → ℕ) (now : ℤ)
    (s : PoolState) (s' : PoolState) (ev : List PoolEvent)
    (h : recalculateTarget cd fd now s = some (s', ev)) :
    s'.nextMiningRequestId = s.nextMiningRequestId ∨
      s'.nextMiningRequestId = s.nextMiningRequestId + 1 := by
  unfold recalculateTarget at h
  split at h
  · split at h
    · exact absurd h (by simp)
    · dsimp only at h
      split at h
      · rw [Option.some.injEq, Prod.mk.injEq] at h
        left
        rw [← h.1]
      · split at h
        · exact absurd h (by simp)
        · rename_i heq
          rw [Option.some.injEq, Prod.mk.injEq] at h
          right
          rw [← h.1]
          exact (distributeNewBlock_inv _ _ _ _ heq).1
  · exact absurd h (by simp)

theorem onTemplate_next (td : List ℕ → ℕ) (s : PoolState)
    (t : SerializedBlockTemplate) (pt : String) (pts : ℤ)
    (s' : PoolState) (ev : List PoolEvent)
    (h : onTemplate td s t pt pts = some (s', ev)) :
    s'.nextMiningRequestId = s.nextMiningRequestId + 1 := by
  unfold onTemplate at h
  dsimp only at h
  split at h
  · exact absurd h (by simp)
  · rename_i heq
    rw [Option.some.injEq, Prod.mk.injEq] at h
    rw [← h.1]
    exact (distributeNewBlock_inv _ _ _ _ heq).1

/-- One observable operation of the coordinator, relating the pool state
before to the pool state after. -/
inductive PoolStep : PoolState → PoolState → Prop where
  | startStep : ∀ s i, PoolStep s (startPool s i).1
  | stopStep : ∀ s, PoolStep s (stopPool s).1
  | submitStep : ∀ hashF ser added s client rid r,
      PoolStep s (submitWork hashF ser added s client rid r).1
  | distributeStep : ∀ s b s' ev, distributeNewBlock s b = some (s', ev) → PoolStep s s'
  | recalcStep : ∀ cd fd now s s' ev,
      recalculateTarget cd fd now s = some (s', ev) → PoolStep s s'
  | templateStep : ∀ td s t pt pts s' ev,
      onTemplate td s t pt pts = some (s', ev) → PoolStep s s'
  | connectStep : ∀ b s, PoolStep s (startConnectingRpc b s).1
  | disconnectStep : ∀ s, PoolStep s (onDisconnectRpc s).1

/-- C7: `nextMiningRequestId` is `0` at construction and only there; every
coordinator operation leaves it equal or increases it (strict monotonicity
of issued ids over the process lifetime), it is incremented by exactly one
per published epoch (`distributeNewBlock`), and a `stop()`/`start()` cycle
leaves it untouched. -/
theorem nextMiningRequestId_monotonic :
    (∀ pd fd, (mkPool pd fd).nextMiningRequestId = 0) ∧
    (∀ s s', PoolStep s s' → s.nextMiningRequestId ≤ s'.nextMiningRequestId) ∧
    (∀ s b s' ev, distributeNewBlock s b = some (s', ev) →
      s'.nextMiningRequestId = s.nextMiningRequestId + 1) ∧
    (∀ s i, ((startPool s i).1).nextMiningRequestId = s.nextMiningRequestId) ∧
    (∀ s, ((stopPool s).1).nextMiningRequestId = s.nextMiningRequestId) := by
  refine ⟨fun _ _ => rfl, ?_, fun s b s' ev h => (distributeNewBlock_inv s b s' ev h).1,
    startPool_next, stopPool_next⟩
  intro s s' hstep
  cases hstep with
  | startStep s i => rw [startPool_next]
  | stopStep s => rw [stopPool_next]
  | submitStep hashF ser added s client rid r => rw [submitWork_next]
  | distributeStep s b s' ev h => rw [(distributeNewBlock_inv s b s' ev h).1]; omega
  | recalcStep cd fd now s s' ev h =>
    rcases recalculateTarget_next cd fd now s s' ev h with h' | h' <;> omega
  | templateStep td s t pt pts s' ev h => rw [onTemplate_next td s t pt pts s' ev h]; omega
  | connectStep b s => rw [startConnectingRpc_next]
  | disconnectStep s => exact le_refl _

/-- Closed instance of `nextMiningRequestId_monotonic`: a fresh pool starts
at `0`; publishing an epoch to the concrete streaming state increments the
counter by exactly one (and does not decrease it); `start`/`stop` leave it
unchanged. -/
theorem nextMiningRequestId_monotonic_witness :
    (mkPool 1 id).nextMiningRequestId = 0 ∧
    (∃ s' ev, distributeNewBlock s0 tmpl0 = some (s', ev) ∧
      s0.nextMiningRequestId ≤ s'.nextMiningRequestId ∧
      s'.nextMiningRequestId = s0.nextMiningRequestId + 1) ∧
    ((startPool (mkPool 1 id) 0).1).nextMiningRequestId = (mkPool 1 id).nextMiningRequestId ∧
    ((stopPool s0).1).nextMiningRequestId = s0.nextMiningRequestId := by
  obtain ⟨s', ev, h⟩ : ∃ s' ev, distributeNewBlock s0 tmpl0 = some (s', ev) := ⟨_, _, rfl⟩
  exact ⟨nextMiningRequestId_monotonic.1 1 id,
    ⟨s', ev, h,
      nextMiningRequestId_monotonic.2.1 s0 s' (PoolStep.distributeStep s0 tmpl0 s' ev h),
      nextMiningRequestId_monotonic.2.2.1 s0 tmpl0 s' ev h⟩,
    nextMiningRequestId_monotonic.2.2.2.1 (mkPool 1 id) 0,
    nextMiningRequestId_monotonic.2.2.2.2 s0⟩

/-- The trace of `n` consecutive failed connection attempts
(`rpc.tryConnect()` resolving `false` each time, 5-second retries). -/
def runFailedAttempts : ℕ → PoolState → PoolState × List PoolEvent
  | 0, s => (s, [])
  | n + 1, s =>
    let step := startConnectingRpc false s
    let restOut := runFailedAttempts n step.1
    (restOut.1, step.2 ++ restOut.2)

theorem startConnectingRpc_failed_first (s : PoolState)
    (hstart : s.started = true) (hwarn : s.connectWarned = false) :
    startConnectingRpc false s
      = ({ s with connectWarned := true },
         [.warnLog "Failed to connect to node, retrying...",
          .scheduleConnectTimeout 5000]) := by
  unfold startConnectingRpc
  rw [hstart, hwarn]
  rfl

theorem startConnectingRpc_failed_warned (s : PoolState)
    (hstart : s.started = true) (hwarn : s.connectWarned = true) :
    startConnectingRpc false s = (s, [.scheduleConnectTimeout 5000]) := by
  unfold startConnectingRpc
  rw [hstart, hwarn]
  rfl

theorem runFailedAttempts_warned (n : ℕ) (s : PoolState)
    (hstart : s.started = true) (hwarn : s.connectWarned = true) :
    runFailedAttempts n s
      = (s, List.replicate n (.scheduleConnectTimeout 5000)) := by
  induction n with
  | zero => rfl
  | succ m ih =>
    unfold runFailedAttempts
    rw [startConnectingRpc_failed_warned s hstart hwarn]
    dsimp only
    rw [ih]
    simp [List.replicate_succ]

theorem countP_replicate (p : PoolEvent → Bool) (n : ℕ) (x : PoolEvent) :
    (List.replicate n x).countP p = if p x then n else 0 := by
  induction n with
  | zero => simp
  | succ m ih =>
    by_cases h : p x <;> simp [List.replicate_succ, List.countP_cons, ih, h]

/-- C8 counterexample: an outage that begins at startup (the pool has never
connected) with `tryConnect` returning `false` twice warns once and
schedules the retries, but emits zero `poolDisconnected` webhook
notifications — not exactly one per outage as claimed (`poolDisconnected`
is only emitted on the close signal of a previously connected upstream). -/
theorem connect_outage_counterexample :
    countEvent (runFailedAttempts 2 startedPool0).2 PoolEvent.webhookPoolDisconnected = 0 ∧
    ¬ countEvent (runFailedAttempts 2 startedPool0).2 PoolEvent.webhookPoolDisconnected
        = 1 := by
  decide

/-- C8 (amended): every failed attempt of an outage schedules a 5000 ms
retry, exactly one warning is logged per outage (on its first failed
attempt), and the `poolDisconnected` webhook is not emitted by failed
connection attempts at all — it is emitted exactly once by the upstream
close signal (`onDisconnectRpc`) that starts a reconnection outage. -/
theorem connect_outage_events (n : ℕ) (s : PoolState)
    (hstart : s.started = true) (hwarn : s.connectWarned = false) (hn : 1 ≤ n) :
    countEvent (runFailedAttempts n s).2 (.scheduleConnectTimeout 5000) = n ∧
    (runFailedAttempts n s).2.countP isWarnEvent = 1 ∧
    countEvent (runFailedAttempts n s).2 PoolEvent.webhookPoolDisconnected = 0 ∧
    countEvent (onDisconnectRpc s).2 PoolEvent.webhookPoolDisconnected = 1 := by
  obtain ⟨m, rfl⟩ : ∃ m, n = m + 1 := ⟨n - 1, by omega⟩
  unfold runFailedAttempts
  rw [startConnectingRpc_failed_first s hstart hwarn]
  dsimp only
  rw [runFailedAttempts_warned m { s with connectWarned := true } hstart rfl]
  refine ⟨?_, ?_, ?_, rfl⟩
  · simp [countEvent, List.countP_append, List.countP_cons, countP_replicate]
  · simp [List.countP_append, List.countP_cons, countP_replicate, isWarnEvent]
  · simp [countEvent, List.countP_append, List.countP_cons, countP_replicate]

/-- Closed instance of `connect_outage_events` on the never-connected
started pool with two failed attempts. -/
theorem connect_outage_events_witness :
    countEvent (runFailedAttempts 2 startedPool0).2 (.scheduleConnectTimeout 5000) = 2 ∧
    (runFailedAttempts 2 startedPool0).2.countP isWarnEvent = 1 ∧
    countEvent (runFailedAttempts 2 startedPool0).2 PoolEvent.webhookPoolDisconnected = 0 ∧
    countEvent (onDisconnectRpc startedPool0).2 PoolEvent.webhookPoolDisconnected = 1 :=
  connect_outage_events 2 startedPool0 rfl rfl (by norm_num)

/-- C9: for a non-negative share rate, `estimateHashRate` is non-negative,
never exceeds `shareRate × difficulty`, falls short of it by at most
`difficulty / 10^6` (the six-decimal-digit scaling), and is exactly
`shareRate × difficulty` whenever the rate scaled by `10^6` is an integer
— the big difficulty multiplication itself is exact integer arithmetic. -/
theorem estimateHashRate_precision (shareRate : ℚ) (difficulty : ℕ)
    (h : 0 ≤ shareRate) :
    0 ≤ estimateHashRate shareRate difficulty ∧
    estimateHashRate shareRate difficulty ≤ shareRate * (difficulty : ℚ) ∧
    shareRate * (difficulty : ℚ) - estimateHashRate shareRate difficulty
      ≤ (difficulty : ℚ) / 1000000 ∧
    ((shareRate * 1000000).den = 1 →
      estimateHashRate shareRate difficulty = shareRate * (difficulty : ℚ)) := by
  have hfl_le : ((⌊shareRate * 1000000⌋ : ℤ) : ℚ) ≤ shareRate * 1000000 :=
    Int.floor_le _
  have hfl_gt : shareRate * 1000000 - 1 < ((⌊shareRate * 1000000⌋ : ℤ) : ℚ) :=
    Int.sub_one_lt_floor _
  have hfl_nonneg : (0 : ℚ) ≤ ((⌊shareRate * 1000000⌋ : ℤ) : ℚ) := by
    have h0 : (0 : ℤ) ≤ ⌊shareRate * 1000000⌋ := Int.floor_nonneg.mpr (by positivity)
    exact_mod_cast h0
  have hd : (0 : ℚ) ≤ (difficulty : ℚ) := Nat.cast_nonneg _
  unfold estimateHashRate
  refine ⟨?_, ?_, ?_, ?_⟩
  · exact div_nonneg (mul_nonneg hfl_nonneg hd) (by norm_num)
  · have hm := mul_le_mul_of_nonneg_right hfl_le hd
    linarith
  · have hm := mul_le_mul_of_nonneg_right hfl_gt.le hd
    linarith
  · intro hden
    have hq : (((shareRate * 1000000).num : ℤ) : ℚ) = shareRate * 1000000 := by
      exact_mod_cast Rat.coe_int_num_of_den_eq_one hden
    rw [← hq, Int.floor_intCast, hq]
    field_simp
    ring

/-- Closed instance of `estimateHashRate_precision` at rate `3/2` and
difficulty `10` (where the scaled rate is an integer, so it is exact). -/
theorem estimateHashRate_precision_witness :
    0 ≤ estimateHashRate (3 / 2) 10 ∧
    estimateHashRate (3 / 2) 10 ≤ 3 / 2 * ((10 : ℕ) : ℚ) ∧
    3 / 2 * ((10 : ℕ) : ℚ) - estimateHashRate (3 / 2) 10 ≤ ((10 : ℕ) : ℚ) / 1000000 ∧
    (((3 : ℚ) / 2 * 1000000).den = 1 →
      estimateHashRate (3 / 2) 10 = 3 / 2 * ((10 : ℕ) : ℚ)) :=
  estimateHashRate_precision (3 / 2) 10 (by norm_num)

end IronfishPool
